import Mathlib

set_option maxRecDepth 8000

/-!
Shallow embedding of the receipt-text-to-transaction extraction engine of the
upi-expense-tracker repository (src/ocr_utils.py and the parsing part of
src/app.py). Text is modelled as List Char; Python floats produced by parsing
short decimal literals are modelled exactly as rationals; the external GROQ
completion capability is modelled as an oracle parameter (none covers a missing
client, a network or service error, absent JSON and malformed JSON, all of which
the source collapses into a None result). Character classes follow the ASCII
behaviour of the Python patterns involved.
-/

/-- Python whitespace as used by str.strip, str.split and the regex class backslash-s
(ASCII part, which is what the receipts in scope contain). -/
def pySpace (c : Char) : Bool :=
  c == ' ' || c == '\t' || c == '\n' || c == '\r' || c == '\x0b' || c == '\x0c'

/-- Python regex word character (ASCII part): letters, digits, underscore. -/
def pyWord (c : Char) : Bool :=
  c.isAlpha || c.isDigit || c == '_'

/-- Lowercasing of a single character, as str.lower does on ASCII. -/
def pyToLower (c : Char) : Char := c.toLower

/-- Uppercasing of a single character, as str.capitalize does on ASCII. -/
def pyToUpper (c : Char) : Char := c.toUpper

/-- Lowercase a whole text. -/
def lowerL (l : List Char) : List Char := l.map pyToLower

/-- Strip leading and trailing Python whitespace, as str.strip. -/
def pyStrip (l : List Char) : List Char :=
  ((l.dropWhile pySpace).reverse.dropWhile pySpace).reverse

/-- Does the needle occur at the head of the haystack. -/
def listHasPre : List Char → List Char → Bool
  | [], _ => true
  | _ :: _, [] => false
  | a :: as, b :: bs => a == b && listHasPre as bs

/-- Does the needle occur anywhere in the haystack (Python substring test). -/
def containsSub (n : List Char) : List Char → Bool
  | [] => n.isEmpty
  | c :: t => listHasPre n (c :: t) || containsSub n t

/-- Leftmost-position search: try the position matcher at every suffix, left to
right, and return the first success, as re.search does. -/
def scanFirst {α : Type} (m : List Char → Option α) : List Char → Option α
  | [] => m []
  | c :: t =>
    match m (c :: t) with
    | some r => some r
    | none => scanFirst m t

/-- Leftmost-position search threading the previous character, needed for the
word-boundary assertions of the bare 4-6 digit amount pattern. -/
def scanPrev {α : Type} (m : Option Char → List Char → Option α) :
    Option Char → List Char → Option α
  | prev, [] => m prev []
  | prev, c :: t =>
    match m prev (c :: t) with
    | some r => some r
    | none => scanPrev m (some c) t

/-- Digits of a numeral folded into a Nat. -/
def natOfDigits (l : List Char) : Nat :=
  l.foldl (fun a c => 10 * a + (c.toNat - '0'.toNat)) 0

/-- Python float(...) on the strings this code ever feeds it: digit sequences
with at most one dot, possibly empty on either side. float of an empty or
dot-only string raises ValueError, modelled as none. The parsed values are tiny
decimals, represented exactly as rationals. -/
def pyFloat (l : List Char) : Option ℚ :=
  let ip := l.takeWhile Char.isDigit
  let rest := l.drop ip.length
  match rest with
  | [] => if ip.isEmpty then none else some ((natOfDigits ip : ℚ))
  | '.' :: fr =>
    if fr.all Char.isDigit && !(ip.isEmpty && fr.isEmpty) then
      some ((natOfDigits ip : ℚ) + (natOfDigits fr : ℚ) / ((10 : ℚ) ^ fr.length))
    else none
  | _ => none

/-- Remove thousands separators, as group(1).replace of a comma by nothing. -/
def stripCommas (l : List Char) : List Char := l.filter (fun c => !(c == ','))

/-- Optional fractional part with one or two digits: the regex piece matching a
dot then one or two digits, greedy, returning the consumed characters. -/
def fracPart : List Char → List Char
  | '.' :: rest =>
    match rest with
    | d1 :: rrest =>
      if d1.isDigit then
        match rrest with
        | d2 :: _ => if d2.isDigit then ['.', d1, d2] else ['.', d1]
        | [] => ['.', d1]
      else []
    | [] => []
  | _ => []

/-- Pattern 1 of the amount extractor at one position: a rupee sign, optional
whitespace, then one or more digits or commas with an optional 1-2 digit
fractional part; returns the captured group. -/
def matchRupeeAt : List Char → Option (List Char)
  | '₹' :: rest =>
    let r2 := rest.dropWhile pySpace
    let digs := r2.takeWhile (fun c => c.isDigit || c == ',')
    if digs.isEmpty then none else some (digs ++ fracPart (r2.drop digs.length))
  | _ => none

/-- Pattern 2 of the amount extractor at one position: the literal INR (exact
case, the call site passes no IGNORECASE flag) then the same numeric grammar. -/
def matchINRAt : List Char → Option (List Char)
  | 'I' :: 'N' :: 'R' :: rest =>
    let r2 := rest.dropWhile pySpace
    let digs := r2.takeWhile (fun c => c.isDigit || c == ',')
    if digs.isEmpty then none else some (digs ++ fracPart (r2.drop digs.length))
  | _ => none

/-- Pattern 3 of the amount extractor at one position: the literal Amount, then
optional whitespace, an optional colon or hyphen, optional whitespace, an
optional rupee sign, optional whitespace, then digits or commas (no fractional
part in this pattern). -/
def matchAmtAt : List Char → Option (List Char)
  | 'A' :: 'm' :: 'o' :: 'u' :: 'n' :: 't' :: rest =>
    let r1 := rest.dropWhile pySpace
    let r2 := match r1 with
      | ':' :: t => t
      | '-' :: t => t
      | _ => r1
    let r3 := r2.dropWhile pySpace
    let r4 := match r3 with
      | '₹' :: t => t
      | _ => r3
    let r5 := r4.dropWhile pySpace
    let digs := r5.takeWhile (fun c => c.isDigit || c == ',')
    if digs.isEmpty then none else some digs
  | _ => none

/-- Greedily consume repetitions of a comma followed by exactly three digits,
returning the consumed characters and the remainder. -/
def takeG3 : List Char → (List Char × List Char)
  | ',' :: d1 :: d2 :: d3 :: rest =>
    if d1.isDigit && d2.isDigit && d3.isDigit then
      let p := takeG3 rest
      (',' :: d1 :: d2 :: d3 :: p.1, p.2)
    else ([], ',' :: d1 :: d2 :: d3 :: rest)
  | other => ([], other)

/-- One backtracking choice of pattern 4: a lead of exactly n digits, then at
least one comma-three-digit group, then an optional fractional part. -/
def leadTry (n : Nat) (s : List Char) : Option (List Char) :=
  let lead := s.take n
  if lead.length == n && lead.all Char.isDigit then
    let p := takeG3 (s.drop n)
    if p.1.isEmpty then none else some (lead ++ p.1 ++ fracPart p.2)
  else none

/-- Pattern 4 of the amount extractor at one position: a comma separated number;
the 1-3 digit lead is greedy, so lengths 3, 2, 1 are tried in that order. -/
def matchCommaNumAt (s : List Char) : Option (List Char) :=
  match leadTry 3 s with
  | some g => some g
  | none =>
    match leadTry 2 s with
    | some g => some g
    | none => leadTry 1 s

/-- Pattern 5 of the amount extractor at one position: a bare 4-6 digit number
between word boundaries. The greedy 4-6 digit repetition with a trailing word
boundary succeeds exactly when the maximal digit run here has length 4 to 6 and
is followed by a non-word character or the end of the text. -/
def matchD46At (prev : Option Char) (s : List Char) : Option (List Char) :=
  let preOK := match prev with
    | none => true
    | some p => !(pyWord p)
  if preOK then
    let run := s.takeWhile Char.isDigit
    let after := s.drop run.length
    let afterOK := match after with
      | [] => true
      | c :: _ => !(pyWord c)
    if 4 ≤ run.length && run.length ≤ 6 && afterOK then some run else none
  else none

/-- First match of the rupee pattern in the text. -/
def findRupee (t : List Char) : Option (List Char) := scanFirst matchRupeeAt t

/-- First match of the INR pattern in the text. -/
def findINR (t : List Char) : Option (List Char) := scanFirst matchINRAt t

/-- First match of the Amount-label pattern in the text. -/
def findAmtLbl (t : List Char) : Option (List Char) := scanFirst matchAmtAt t

/-- First match of the comma separated number pattern in the text. -/
def findCommaNum (t : List Char) : Option (List Char) := scanFirst matchCommaNumAt t

/-- First match of the bare 4-6 digit pattern in the text. -/
def findD46 (t : List Char) : Option (List Char) := scanPrev matchD46At none t

/-- Numeric value of the first match of one pattern: strip commas and parse as
float; none when the pattern has no match or the parse raises. -/
def patVal (f : List Char → Option (List Char)) (t : List Char) : Option ℚ :=
  match f t with
  | some g => pyFloat (stripCommas g)
  | none => none

/-- One loop iteration of extract_amount_from_text: first match of the pattern,
parsed, accepted only inside the plausible range 1 to 500000; an out-of-range
or unparsable first match yields none so the caller moves to the next pattern. -/
def tryPat (f : List Char → Option (List Char)) (t : List Char) : Option ℚ :=
  match patVal f t with
  | some v => if 1 ≤ v ∧ v ≤ 500000 then some v else none
  | none => none

/-- The ordered pattern loop of extract_amount_from_text. -/
def tryPats : List (List Char → Option (List Char)) → List Char → Option ℚ
  | [], _ => none
  | f :: fs, t =>
    match tryPat f t with
    | some v => some v
    | none => tryPats fs t

/-- The five amount patterns in the priority order of the source. -/
def amountPats : List (List Char → Option (List Char)) :=
  [findRupee, findINR, findAmtLbl, findCommaNum, findD46]

/-- extract_amount_from_text of src/ocr_utils.py: try the ordered patterns, for
each one look only at its first match in the text, parse it, accept the first
in-range value. -/
def extract_amount_from_text (t : List Char) : Option ℚ :=
  tryPats amountPats t

/-- Every pattern of the ordered list either has no first match, or its first
match fails to parse, or parses to a value outside the plausible range. -/
def allOut (t : List Char) : Bool :=
  amountPats.all (fun f =>
    match patVal f t with
    | some v => decide (¬(1 ≤ v ∧ v ≤ 500000))
    | none => true)

/-- Split a text on newline characters, as str.split of a newline: empty pieces
are kept and the empty text yields one empty line. -/
def splitLines : List Char → List (List Char)
  | [] => [[]]
  | c :: t =>
    match splitLines t with
    | [] => [[c]]
    | r :: rs => if c == '\n' then [] :: r :: rs else (c :: r) :: rs

/-- Join lines with single newline characters, as the newline join call. -/
def joinLines : List (List Char) → List Char
  | [] => []
  | [l] => l
  | l :: ls => l ++ '\n' :: joinLines ls

/-- Is there a two-digit colon two-digit token at the head of the list. -/
def timeAt : List Char → Bool
  | a :: b :: c :: d :: e :: _ =>
    a.isDigit && b.isDigit && c == ':' && d.isDigit && e.isDigit
  | _ => false

/-- Does the line contain an HH:MM time-of-day token anywhere. -/
def hasTimeTok : List Char → Bool
  | [] => false
  | c :: t => timeAt (c :: t) || hasTimeTok t

/-- The transaction-metadata keywords of the line filter, lowercase. -/
def metaKeys : List (List Char) :=
  (["upi", "ref", "txn", "id", "bank", "transaction"]).map String.toList

/-- The line filter of extract_merchant_info: a line survives when its
lowercased text contains none of the metadata keywords and no HH:MM token. -/
def lineOK (line : List Char) : Bool :=
  (metaKeys.all (fun w => !(containsSub w (lowerL line)))) && !(hasTimeTok line)

/-- The cleaned text the merchant patterns are searched on: surviving lines,
joined back with newlines. -/
def merchantTextOf (t : List Char) : List Char :=
  joinLines ((splitLines t).filter lineOK)

/-- The character class of the merchant name group: letters, whitespace,
ampersand, dot, hyphen (IGNORECASE makes the letter range both cases). -/
def gClass (c : Char) : Bool :=
  c.isAlpha || pySpace c || c == '&' || c == '.' || c == '-'

/-- The lookahead terminating a merchant name: whitespace then a digit, a
newline, the end of the text, or whitespace then one of a star, an at sign, the
word on followed by behalf, or the word on followed by a digit. -/
def lookAhead (s : List Char) : Bool :=
  (match s.dropWhile pySpace with
   | c :: _ => c.isDigit
   | [] => false)
  || s.isEmpty
  || (match s with
      | '\n' :: _ => true
      | _ => false)
  || (let ws := s.takeWhile pySpace
      !ws.isEmpty &&
        (let r := s.drop ws.length
         (match r with
          | '*' :: _ => true
          | '@' :: _ => true
          | _ => false)
         || (listHasPre ['o', 'n'] (lowerL r) &&
             (let r2 := r.drop 2
              let ws2 := r2.takeWhile pySpace
              !ws2.isEmpty &&
                (let r3 := r2.drop ws2.length
                 listHasPre ("behalf".toList) (lowerL r3)
                 || (match r3 with
                     | c :: _ => c.isDigit
                     | [] => false))))))

/-- The lazy one-or-more repetition of the merchant name group: extend one
class character at a time, checking the lookahead after each extension, and
return the shortest group (of length at least two) whose tail satisfies the
lookahead. -/
def lazyGrab : List Char → List Char → Option (List Char)
  | _, [] => none
  | acc, c :: rest =>
    if gClass c then
      if lookAhead rest then some (acc ++ [c]) else lazyGrab (acc ++ [c]) rest
    else none

/-- The shared tail of the merchant patterns after their keyword: one or more
separator characters, a letter, then the lazy group with its lookahead. -/
def tailAfterKw (sep : Char → Bool) (s : List Char) : Option (List Char) :=
  let ws := s.takeWhile sep
  if ws.isEmpty then none
  else
    match s.drop ws.length with
    | c :: rest => if c.isAlpha then lazyGrab [c] rest else none
    | [] => none

/-- Separator class of the first two merchant patterns: whitespace or colon. -/
def sepWsColon (c : Char) : Bool := pySpace c || c == ':'

/-- One keyword alternative of the first merchant pattern at one position: the
keyword, case-insensitively, then the shared tail. -/
def tryKw1 (kw : List Char) (s : List Char) : Option (List Char) :=
  if listHasPre kw (lowerL s) then tailAfterKw sepWsColon (s.drop kw.length)
  else none

/-- Lowercased keyword alternatives of the first merchant pattern. -/
def paidToL : List Char := "paid to".toList

def sentToL : List Char := "sent to".toList

def forL : List Char := "for".toList

def merchantKwL : List Char := "merchant".toList

def recipientL : List Char := "recipient".toList

def shopL : List Char := "shop".toList

def requestedByL : List Char := "requested by".toList

/-- First merchant pattern at one position: the keyword alternation in source
order, then the shared tail. -/
def p1At (s : List Char) : Option (List Char) :=
  tryKw1 paidToL s <|> tryKw1 sentToL s <|> tryKw1 forL s <|>
    tryKw1 merchantKwL s <|> tryKw1 recipientL s <|> tryKw1 shopL s <|>
    tryKw1 requestedByL s

/-- Second merchant pattern at one position: received, whitespace, from or by,
then the shared tail. -/
def p2At (s : List Char) : Option (List Char) :=
  if listHasPre ("received".toList) (lowerL s) then
    let r := s.drop 8
    let ws := r.takeWhile pySpace
    if ws.isEmpty then none
    else
      let r2 := r.drop ws.length
      if listHasPre ("from".toList) (lowerL r2) then
        tailAfterKw sepWsColon (r2.drop 4)
      else if listHasPre ("by".toList) (lowerL r2) then
        tailAfterKw sepWsColon (r2.drop 2)
      else none
  else none

/-- Third merchant pattern at one position: the word to, whitespace (no colon
in this pattern), then the letter-led lazy group with the same lookahead. -/
def p3At (s : List Char) : Option (List Char) :=
  if listHasPre ("to".toList) (lowerL s) then tailAfterKw pySpace (s.drop 2)
  else none

/-- Python str.split with no argument: split on whitespace runs, no empties. -/
def pySplitWS (l : List Char) : List (List Char) :=
  let step := fun (acc : List (List Char) × List Char) (c : Char) =>
    if pySpace c then
      (if acc.2.isEmpty then acc else (acc.1 ++ [acc.2.reverse], []))
    else (acc.1, c :: acc.2)
  let r := l.foldl step ([], [])
  if r.2.isEmpty then r.1 else r.1 ++ [r.2.reverse]

/-- Python str.capitalize: first character uppercased, the rest lowercased. -/
def capWord : List Char → List Char
  | [] => []
  | c :: cs => pyToUpper c :: cs.map pyToLower

/-- Join words with single spaces. -/
def joinWords : List (List Char) → List Char
  | [] => []
  | [w] => w
  | w :: ws => w ++ ' ' :: joinWords ws

/-- The cleanup applied to a captured merchant name: strip, blank out
characters outside word, whitespace, ampersand, dot, hyphen, strip again,
then capitalize each whitespace-separated word and rejoin with spaces. -/
def cleanMerchant (g : List Char) : List Char :=
  let s1 := pyStrip g
  let s2 := s1.map (fun c =>
    if pyWord c || pySpace c || c == '&' || c == '.' || c == '-' then c else ' ')
  let s3 := pyStrip s2
  joinWords ((pySplitWS s3).map capWord)

/-- The pattern loop of extract_merchant_info: search each pattern over the
cleaned text; a match whose cleaned name is longer than one character wins and
stops the loop; a shorter match is still recorded as the current candidate and
the next pattern is tried. -/
def merchantLoop :
    List (List Char → Option (List Char)) → Option (List Char) → List Char →
      Option (List Char)
  | [], cur, _ => cur
  | p :: ps, cur, mt =>
    match scanFirst p mt with
    | some g =>
      let m := cleanMerchant g
      if 1 < m.length then some m else merchantLoop ps (some m) mt
    | none => merchantLoop ps cur mt

/-- The known-merchant dictionary, in the insertion order of the source. -/
def commonMerchants : List (List Char × List Char) :=
  [("spotify".toList, "Spotify".toList),
   ("billdesk".toList, "BillDesk".toList),
   ("zomato".toList, "Zomato".toList),
   ("swiggy".toList, "Swiggy".toList),
   ("amazon".toList, "Amazon".toList),
   ("flipkart".toList, "Flipkart".toList),
   ("bigbasket".toList, "BigBasket".toList),
   ("uber".toList, "Uber".toList),
   ("ola".toList, "Ola".toList),
   ("irctc".toList, "IRCTC".toList),
   ("bookmyshow".toList, "BookMyShow".toList)]

/-- Dictionary fallback: the first key occurring in the lowercased original
text wins, in fixed iteration order. -/
def dictLookup (t : List Char) : Option (List Char) :=
  let tl := lowerL t
  (commonMerchants.find? (fun kv => containsSub kv.1 tl)).map (fun kv => kv.2)

/-- The resolved merchant of extract_merchant_info before the Unknown default:
pattern loop first; when its outcome is missing or empty, the dictionary
fallback on the original text; none models the Python falsy states. -/
def resolveMerchant (t : List Char) : Option (List Char) :=
  let mt := merchantTextOf t
  match merchantLoop [p1At, p2At, p3At] none mt with
  | some m => if m.isEmpty then dictLookup t else some m
  | none => dictLookup t

def unknownS : List Char := "Unknown".toList

def otherS : List Char := "Other".toList

def succS : List Char := "success".toList

def errS : List Char := "error".toList

def noTextMsg : List Char := "No text content to analyze".toList

/-- Keyword groups of the category mapping, in the order tested. -/
def entKeys : List (List Char) :=
  (["spotify", "netflix", "prime", "hotstar"]).map String.toList

def foodKeys : List (List Char) :=
  (["zomato", "swiggy", "food", "restaurant", "cafe", "dining"]).map String.toList

def shopKeys : List (List Char) :=
  (["amazon", "flipkart", "myntra", "ajio"]).map String.toList

def transKeys : List (List Char) :=
  (["uber", "ola", "rapido"]).map String.toList

def billKeys : List (List Char) :=
  (["billdesk", "phonepe", "paytm", "google pay"]).map String.toList

/-- The category mapping of extract_merchant_info: reads only the resolved
merchant name (lowercased); with no resolved merchant the category stays
Other. -/
def categorize : Option (List Char) → List Char
  | none => otherS
  | some m =>
    if entKeys.any (fun k => containsSub k (lowerL m)) then
      "Entertainment".toList
    else if foodKeys.any (fun k => containsSub k (lowerL m)) then
      "Food & Dining".toList
    else if shopKeys.any (fun k => containsSub k (lowerL m)) then
      "Shopping".toList
    else if transKeys.any (fun k => containsSub k (lowerL m)) then
      "Transport".toList
    else if billKeys.any (fun k => containsSub k (lowerL m)) then
      "Bills & Utilities".toList
    else otherS

/-- The closed category set of the data model. -/
def catList : List (List Char) :=
  (["Food & Dining", "Transport", "Shopping", "Bills & Utilities",
    "Entertainment", "Other"]).map String.toList

/-- Result shape of extract_merchant_info. -/
structure MerchantInfo where
  merchant : List Char
  category : List Char
deriving DecidableEq

/-- extract_merchant_info of src/ocr_utils.py. -/
def extract_merchant_info (t : List Char) : MerchantInfo :=
  { merchant := (resolveMerchant t).getD unknownS
    category := categorize (resolveMerchant t) }

/-- Take exactly n digits from the head, returning them and the remainder. -/
def digitsTake (n : Nat) (s : List Char) : Option (List Char × List Char) :=
  let d := s.take n
  if d.length == n && d.all Char.isDigit then some (d, s.drop n) else none

/-- Take one date separator, slash or hyphen. -/
def sepTake : List Char → Option (Char × List Char)
  | c :: t => if c == '/' || c == '-' then some (c, t) else none
  | [] => none

/-- The 2-4 digit year of the date pattern, greedy. -/
def dyear (r : List Char) : Option (List Char) :=
  match digitsTake 4 r with
  | some p => some p.1
  | none =>
    match digitsTake 3 r with
    | some p => some p.1
    | none =>
      match digitsTake 2 r with
      | some p => some p.1
      | none => none

/-- One backtracking choice of the month part: exactly b digits, a separator,
then the year. -/
def dtry (b : Nat) (r2 : List Char) : Option (List Char) :=
  match digitsTake b r2 with
  | some p =>
    match sepTake p.2 with
    | some q =>
      match dyear q.2 with
      | some y => some (p.1 ++ q.1 :: y)
      | none => none
    | none => none
  | none => none

/-- Month then year of the date pattern, with the greedy 1-2 digit month. -/
def dateTail2 (r2 : List Char) : Option (List Char) :=
  match dtry 2 r2 with
  | some r => some r
  | none => dtry 1 r2

/-- One backtracking choice of the day part: exactly a digits, a separator,
then month and year. -/
def dpart (a : Nat) (s : List Char) : Option (List Char) :=
  match digitsTake a s with
  | some p =>
    match sepTake p.2 with
    | some q =>
      match dateTail2 q.2 with
      | some rest => some (p.1 ++ q.1 :: rest)
      | none => none
    | none => none
  | none => none

/-- The date pattern of parse_upi_transaction at one position: 1-2 digits, a
slash or hyphen, 1-2 digits, a slash or hyphen, 2-4 digits, all greedy. -/
def matchDateAt (s : List Char) : Option (List Char) :=
  match dpart 2 s with
  | some r => some r
  | none => dpart 1 s

/-- The uniform result record of parse_upi_transaction. The analysis field
carries the optional GROQ annotation string; errorMsg models the error key,
present only on the error path. -/
structure PyTransaction where
  amount : Option ℚ
  merchant : List Char
  category : List Char
  date : Option (List Char)
  status : List Char
  errorMsg : Option (List Char)
  analysis : Option (List Char)
deriving DecidableEq

/-- parse_upi_transaction of src/ocr_utils.py. The ai argument is the oracle
for the optional GROQ analysis: none covers a missing client and every failure
mode of analyze_with_groq, which all yield None in the source; the oracle only
feeds the analysis annotation, never the extracted fields. Empty or
whitespace-only text short-circuits to the error record before any extraction
or AI call. -/
def parse_upi_transaction (ai : Option (List Char)) (t : List Char) :
    PyTransaction :=
  if t.all pySpace then
    { amount := none, merchant := unknownS, category := otherS, date := none
      status := errS, errorMsg := some noTextMsg, analysis := none }
  else
    let mi := extract_merchant_info t
    { amount := extract_amount_from_text t
      merchant := mi.merchant
      category := mi.category
      date := scanFirst matchDateAt t
      status := succS
      errorMsg := none
      analysis := ai }

/-- A parsed JSON object returned by parse_receipt_with_groq in src/app.py.
The four standard keys are modelled as optional fields; extraKeys counts any
further keys (including standard keys bound to null), so that the Python
truthiness of the dict is the disjunction below. -/
structure GroqParsed where
  amount : Option ℚ
  merchant : Option (List Char)
  category : Option (List Char)
  date : Option (List Char)
  extraKeys : Nat
deriving DecidableEq

/-- Python truthiness of the parsed dict: it has at least one key. -/
def gTruthy (d : GroqParsed) : Bool :=
  d.amount.isSome || d.merchant.isSome || d.category.isSome || d.date.isSome
    || decide (d.extraKeys ≠ 0)

/-- The extracted_data record assembled by upload_receipt in src/app.py. -/
structure FinalData where
  amount : Option ℚ
  merchant : List Char
  category : List Char
  date : Option (List Char)
deriving DecidableEq

/-- Fractional part with exactly two digits, as the regex piece of the amount
patterns of parse_receipt_text in src/app.py. -/
def frac2 : List Char → List Char
  | '.' :: a :: b :: _ => if a.isDigit && b.isDigit then ['.', a, b] else []
  | _ => []

/-- First amount pattern of parse_receipt_text at one position: a rupee sign,
optional whitespace, digits with an optional two-digit fractional part. -/
def appMatch1 : List Char → Option (List Char)
  | '₹' :: rest =>
    let r := rest.dropWhile pySpace
    let d := r.takeWhile Char.isDigit
    if d.isEmpty then none else some (d ++ frac2 (r.drop d.length))
  | _ => none

/-- Second amount pattern of parse_receipt_text at one position: Rs (either
case, the call passes IGNORECASE), an optional dot, optional whitespace, then
the numeric grammar. -/
def appMatch2 (s : List Char) : Option (List Char) :=
  if listHasPre ("rs".toList) (lowerL s) then
    let r0 := s.drop 2
    let r1 := match r0 with
      | '.' :: t => t
      | _ => r0
    let r := r1.dropWhile pySpace
    let d := r.takeWhile Char.isDigit
    if d.isEmpty then none else some (d ++ frac2 (r.drop d.length))
  else none

/-- Shared tail of the Total and Amount label patterns of parse_receipt_text:
any mix of colons and whitespace, an optional rupee sign, optional whitespace,
then the numeric grammar. -/
def appLabelTail (r0 : List Char) : Option (List Char) :=
  let r1 := r0.dropWhile (fun c => c == ':' || pySpace c)
  let r2 := match r1 with
    | '₹' :: t => t
    | _ => r1
  let r := r2.dropWhile pySpace
  let d := r.takeWhile Char.isDigit
  if d.isEmpty then none else some (d ++ frac2 (r.drop d.length))

/-- Third amount pattern of parse_receipt_text: the Total label, either case. -/
def appMatch3 (s : List Char) : Option (List Char) :=
  if listHasPre ("total".toList) (lowerL s) then appLabelTail (s.drop 5)
  else none

/-- Fourth amount pattern of parse_receipt_text: the Amount label, either
case. -/
def appMatch4 (s : List Char) : Option (List Char) :=
  if listHasPre ("amount".toList) (lowerL s) then appLabelTail (s.drop 6)
  else none

/-- Fifth amount pattern of parse_receipt_text: digits, a dot, then exactly two
digits. -/
def appMatch5 (s : List Char) : Option (List Char) :=
  let d := s.takeWhile Char.isDigit
  if d.isEmpty then none
  else
    match s.drop d.length with
    | '.' :: a :: b :: _ =>
      if a.isDigit && b.isDigit then some (d ++ '.' :: [a, b]) else none
    | _ => none

/-- The amount loop of parse_receipt_text: first match of each pattern in
order, parsed without any range check, a parse failure moving to the next
pattern. -/
def appTryList :
    List (List Char → Option (List Char)) → List Char → Option ℚ
  | [], _ => none
  | m :: ms, t =>
    match scanFirst m t with
    | some g =>
      match pyFloat g with
      | some v => some v
      | none => appTryList ms t
    | none => appTryList ms t

/-- The amount extraction of parse_receipt_text. -/
def appAmount (t : List Char) : Option ℚ :=
  appTryList [appMatch1, appMatch2, appMatch3, appMatch4, appMatch5] t

/-- The all-digits-then-junk line shape parse_receipt_text refuses as a
merchant: digits, then only dots, hyphens and whitespace to the end. -/
def allDigitsJunk (l : List Char) : Bool :=
  let d := l.takeWhile Char.isDigit
  !d.isEmpty && (l.drop d.length).all (fun c => c == '.' || c == '-' || pySpace c)

/-- Pick the merchant line from the first candidates, as parse_receipt_text:
the first line longer than three characters that is not the refused shape,
truncated to fifty characters; Unknown otherwise. -/
def appPick : List (List Char) → List Char
  | [] => unknownS
  | l :: ls =>
    if 3 < l.length && !(allDigitsJunk l) then l.take 50 else appPick ls

/-- The merchant extraction of parse_receipt_text: stripped non-empty lines,
first three considered. -/
def appMerchant (t : List Char) : List Char :=
  appPick ((((splitLines t).map pyStrip).filter (fun l => !l.isEmpty)).take 3)

/-- The category extraction of parse_receipt_text: keyword groups scanned over
the lowercased raw text, in source order. -/
def appCategory (t : List Char) : List Char :=
  let tl := lowerL t
  if (["restaurant", "cafe", "food", "dining", "hotel", "zomato",
       "swiggy"].map String.toList).any (fun k => containsSub k tl) then
    "Food & Dining".toList
  else if (["uber", "ola", "taxi", "metro", "bus",
            "transport"].map String.toList).any (fun k => containsSub k tl) then
    "Transport".toList
  else if (["mall", "store", "shop", "amazon",
            "flipkart"].map String.toList).any (fun k => containsSub k tl) then
    "Shopping".toList
  else if (["electric", "water", "gas", "bill",
            "utility"].map String.toList).any (fun k => containsSub k tl) then
    "Bills & Utilities".toList
  else if (["movie", "cinema", "game",
            "entertainment"].map String.toList).any (fun k => containsSub k tl) then
    "Entertainment".toList
  else otherS

/-- parse_receipt_text of src/app.py, the regex fallback of the upload
orchestrator; its date key is never set. -/
def parse_receipt_text (t : List Char) : FinalData :=
  { amount := appAmount t
    merchant := appMerchant t
    category := appCategory t
    date := none }

/-- The merge step of upload_receipt in src/app.py: a truthy parsed AI object
is adopted as is, each missing key falling back to the fixed .get default
(None, Unknown, Other, None); only a missing or empty AI object triggers the
regex fallback. -/
def upload_merge (g : Option GroqParsed) (t : List Char) : FinalData :=
  match g with
  | some d =>
    if gTruthy d then
      { amount := d.amount
        merchant := d.merchant.getD unknownS
        category := d.category.getD otherS
        date := d.date }
    else parse_receipt_text t
  | none => parse_receipt_text t

/-- The HTTP-level outcome of upload_receipt, restricted to the parsing core:
success flag, extracted data, error message. -/
structure UploadResult where
  success : Bool
  data : Option FinalData
  errMsg : Option (List Char)
deriving DecidableEq

/-- upload_receipt of src/app.py from the point where the OCR text is known:
empty extracted text is rejected before the AI is consulted; otherwise the AI
oracle result is merged and the response always reports success. -/
def upload_receipt (g : Option GroqParsed) (t : List Char) : UploadResult :=
  if t.isEmpty then
    { success := false, data := none
      errMsg := some ("Could not extract text from image".toList) }
  else
    { success := true, data := some (upload_merge g t), errMsg := none }

/-- Sample texts used by the concrete theorems below. -/
def zomatoT : List Char := "Paid to Zomato ₹450 on 12/05/2023".toList

def outDemoT : List Char := "₹600000".toList

def rangeDemoT : List Char := "₹600000 plus 2,500".toList

def c3T : List Char := "₹600000 and ₹500".toList

def c3WitT : List Char := "1234 and ₹450".toList

def helloT : List Char := "hello".toList

def helloWorldT : List Char := "hello world".toList

def raviT : List Char := "Paid to Ravi Kumar".toList

def paidZomatoT : List Char := "Paid to Zomato 450".toList

def c4T : List Char := "Zomato Order\nabc".toList

def c4D : GroqParsed :=
  { amount := some 450, merchant := none, category := none, date := none
    extraKeys := 0 }

theorem tryPat_cases (f : List Char → Option (List Char)) (t : List Char) :
    tryPat f t = none ∨ ∃ v, tryPat f t = some v ∧ 1 ≤ v ∧ v ≤ 500000 := by
  unfold tryPat
  cases h : patVal f t with
  | none => exact Or.inl rfl
  | some v =>
    by_cases hr : 1 ≤ v ∧ v ≤ 500000
    · exact Or.inr ⟨v, by simp [hr], hr.1, hr.2⟩
    · exact Or.inl (by simp [hr])

theorem tryPats_range (ps : List (List Char → Option (List Char)))
    (t : List Char) :
    tryPats ps t = none ∨ ∃ v, tryPats ps t = some v ∧ 1 ≤ v ∧ v ≤ 500000 := by
  induction ps with
  | nil => exact Or.inl rfl
  | cons f fs ih =>
    rcases tryPat_cases f t with h | ⟨v, h, h1, h2⟩
    · have he : tryPats (f :: fs) t = tryPats fs t := by simp [tryPats, h]
      rw [he]; exact ih
    · exact Or.inr ⟨v, by simp [tryPats, h], h1, h2⟩

theorem tryPats_none (ps : List (List Char → Option (List Char)))
    (t : List Char)
    (h : (ps.all (fun f =>
      match patVal f t with
      | some v => decide (¬(1 ≤ v ∧ v ≤ 500000))
      | none => true)) = true) :
    tryPats ps t = none := by
  induction ps with
  | nil => rfl
  | cons f fs ih =>
    rw [List.all_cons, Bool.and_eq_true] at h
    have hf : tryPat f t = none := by
      unfold tryPat
      cases hv : patVal f t with
      | none => rfl
      | some v =>
        have h1 := h.1
        rw [hv] at h1
        simp only [decide_eq_true_eq] at h1
        simp [h1]
    simp only [tryPats, hf]
    exact ih h.2

/-- C2: extract_amount_from_text returns either none or a value inside the
plausible range 1 to 500000; when the first match of every pattern is missing,
unparsable or out of range the result is none; and an out-of-range value for
one pattern lets the search continue with the later patterns, as the sample
text with an out-of-range rupee match but an in-range comma separated number
shows. -/
theorem amount_plausible_range :
    (∀ t, extract_amount_from_text t = none ∨
      ∃ v, extract_amount_from_text t = some v ∧ 1 ≤ v ∧ v ≤ 500000) ∧
    (∀ t, allOut t = true → extract_amount_from_text t = none) ∧
    extract_amount_from_text rangeDemoT = some 2500 := by
  refine ⟨fun t => tryPats_range amountPats t, fun t h => ?_, by decide⟩
  exact tryPats_none amountPats t h

/-- Witness for C2 at a concrete text whose only numeric signals are out of
range. -/
theorem amount_plausible_range_witness :
    allOut outDemoT = true ∧ extract_amount_from_text outDemoT = none :=
  ⟨by decide, amount_plausible_range.2.1 outDemoT (by decide)⟩

/-- C3 (amended): when the FIRST match of the currency-symbol pattern parses to
a value within the plausible range, extract_amount_from_text returns exactly
that value, whatever the looser patterns would match elsewhere in the text. -/
theorem first_rupee_wins (t : List Char) (v : ℚ)
    (h : patVal findRupee t = some v) (h1 : 1 ≤ v) (h2 : v ≤ 500000) :
    extract_amount_from_text t = some v := by
  have hp : tryPat findRupee t = some v := by
    unfold tryPat
    rw [h]
    simp [h1, h2]
  show tryPats amountPats t = some v
  simp [amountPats, tryPats, hp]

/-- Witness for the amended C3: a 4-digit bare number appears earlier in the
text, yet the in-range rupee match wins. -/
theorem first_rupee_wins_witness :
    patVal findRupee c3WitT = some 450 ∧ (1 : ℚ) ≤ 450 ∧ (450 : ℚ) ≤ 500000 ∧
      extract_amount_from_text c3WitT = some 450 :=
  ⟨by decide, by decide, by decide,
    first_rupee_wins c3WitT 450 (by decide) (by decide) (by decide)⟩

/-- Counterexample to C3 as stated: the text contains a currency-symbol amount
of 500, inside the plausible range, at offset 12, but because the FIRST rupee
match parses out of range (600000) and each pattern only ever contributes its
first match, the extractor returns none instead of that value. -/
theorem later_rupee_counterexample :
    matchRupeeAt (c3T.drop 12) = some ("500".toList) ∧
      pyFloat (stripCommas ("500".toList)) = some 500 ∧
      (1 : ℚ) ≤ 500 ∧ (500 : ℚ) ≤ 500000 ∧
      extract_amount_from_text c3T = none := by
  exact ⟨by decide, by decide, by decide, by decide, by decide⟩

/-- C1 (amended): on empty or whitespace-only text, parse_upi_transaction
returns the error record with the exact source message (which starts with a
capital N), amount none, merchant Unknown, category Other, date none, without
touching the extractors or the AI oracle; totality of the embedding models
that the call does not raise. -/
theorem blank_input_error_record (t : List Char) (ai : Option (List Char))
    (h : t.all pySpace = true) :
    parse_upi_transaction ai t =
      { amount := none, merchant := unknownS, category := otherS, date := none
        status := errS, errorMsg := some noTextMsg, analysis := none } := by
  simp [parse_upi_transaction, h]

/-- Witness for the amended C1 at a single-space text. -/
theorem blank_input_error_record_witness :
    (" ".toList.all pySpace = true) ∧
      parse_upi_transaction none (" ".toList) =
        { amount := none, merchant := unknownS, category := otherS
          date := none, status := errS, errorMsg := some noTextMsg
          analysis := none } :=
  ⟨by decide, blank_input_error_record (" ".toList) none (by decide)⟩

/-- Counterexample to C1 as stated: the error message carried by the record is
the source literal starting with a capital N, not the all-lowercase sentence
quoted by the claim. -/
theorem blank_error_message_case :
    (parse_upi_transaction none []).errorMsg = some noTextMsg ∧
      noTextMsg ≠ "no text content to analyze".toList := by
  exact ⟨by decide, by decide⟩

/-- C5: on the sample receipt text the parser extracts amount 450, merchant
Zomato (via the known-merchant dictionary, since the line filter removes the
line), category Food and Dining, and the date 12/05/2023, whatever the AI
oracle returns. -/
theorem zomato_sample (ai : Option (List Char)) :
    (parse_upi_transaction ai zomatoT).amount = some 450 ∧
      (parse_upi_transaction ai zomatoT).merchant = "Zomato".toList ∧
      (parse_upi_transaction ai zomatoT).category = "Food & Dining".toList ∧
      (parse_upi_transaction ai zomatoT).date = some ("12/05/2023".toList) := by
  have hb : zomatoT.all pySpace = false := by decide
  simp only [parse_upi_transaction, hb, Bool.false_eq_true, if_false]
  exact ⟨by decide, by decide, by decide, by decide⟩

/-- C7: for every text and oracle outcome the parser returns a record whose
status is success with no error message, or error with the diagnostic message;
the embedding is a total function, modelling that the source never lets an
exception escape the orchestrator boundary. -/
theorem parse_status_wellformed (t : List Char) (ai : Option (List Char)) :
    ((parse_upi_transaction ai t).status = succS ∧
      (parse_upi_transaction ai t).errorMsg = none) ∨
    ((parse_upi_transaction ai t).status = errS ∧
      (parse_upi_transaction ai t).errorMsg = some noTextMsg) := by
  by_cases hb : t.all pySpace = true
  · right
    simp [parse_upi_transaction, hb]
  · left
    simp [parse_upi_transaction, hb]

/-- C9: the transaction fields are a function of the text alone; two calls with
the same text but arbitrary (possibly different) AI oracle outcomes agree on
amount, merchant, category, date, status and error message, so nothing in the
parse drifts between invocations. -/
theorem parse_oracle_independent (t : List Char)
    (a1 a2 : Option (List Char)) :
    (parse_upi_transaction a1 t).amount = (parse_upi_transaction a2 t).amount ∧
    (parse_upi_transaction a1 t).merchant =
      (parse_upi_transaction a2 t).merchant ∧
    (parse_upi_transaction a1 t).category =
      (parse_upi_transaction a2 t).category ∧
    (parse_upi_transaction a1 t).date = (parse_upi_transaction a2 t).date ∧
    (parse_upi_transaction a1 t).status = (parse_upi_transaction a2 t).status ∧
    (parse_upi_transaction a1 t).errorMsg =
      (parse_upi_transaction a2 t).errorMsg := by
  by_cases hb : t.all pySpace = true <;> simp [parse_upi_transaction, hb]

/-- Counterexample to C8 as stated: on whitespace-only text the orchestrator
returns the error status even when the AI path fails, so the promised
fall-back-to-success does not hold for EVERY input text. -/
theorem ai_failure_blank_counterexample :
    (parse_upi_transaction none (" ".toList)).status = errS ∧ errS ≠ succS := by
  exact ⟨by decide, by decide⟩

/-- C8 (amended): for every text that is not empty or whitespace-only, an AI
failure (the oracle none covers a missing client, a network or service error,
absent JSON and malformed JSON, all cases the source maps to None) leaves the
orchestrator on the regex path: status success, fields exactly the
regex-derived extractor outputs, no error propagated; likewise the upload
orchestrator of src/app.py falls back to its regex result when the AI yields
nothing. -/
theorem ai_failure_fallback (t : List Char) (h : t.all pySpace = false) :
    ((parse_upi_transaction none t).status = succS ∧
     (parse_upi_transaction none t).amount = extract_amount_from_text t ∧
     (parse_upi_transaction none t).merchant = (extract_merchant_info t).merchant ∧
     (parse_upi_transaction none t).category = (extract_merchant_info t).category ∧
     (parse_upi_transaction none t).date = scanFirst matchDateAt t ∧
     (parse_upi_transaction none t).errorMsg = none) ∧
    upload_merge none t = parse_receipt_text t := by
  constructor
  · simp [parse_upi_transaction, h]
  · rfl

/-- Witness for the amended C8 at a plain text with no extraction signal. -/
theorem ai_failure_fallback_witness :
    helloWorldT.all pySpace = false ∧
      (parse_upi_transaction none helloWorldT).status = succS :=
  ⟨by decide, ((ai_failure_fallback helloWorldT (by decide)).1).1⟩

/-- Counterexample to C4 as stated: an AI object carrying only an amount (a
structurally valid object in the sense of the claim) is adopted, but the
missing merchant is NOT filled from the regex extractors, which would both
find a merchant in this text; it is set to the fixed default Unknown. -/
theorem ai_fields_not_gap_filled :
    gTruthy c4D = true ∧ c4D.amount = some 450 ∧
      (upload_merge (some c4D) c4T).merchant = unknownS ∧
      (parse_receipt_text c4T).merchant = "Zomato Order".toList ∧
      (extract_merchant_info c4T).merchant = "Order".toList ∧
      unknownS ≠ "Zomato Order".toList ∧ unknownS ≠ "Order".toList := by
  exact ⟨by decide, by decide, by decide, by decide, by decide, by decide,
    by decide⟩

/-- C4 (amended): the upload orchestrator attempts the AI path first; ANY
non-empty parsed AI object (no check that it contains an amount or merchant)
is adopted as is, its missing fields filled with the fixed defaults none,
Unknown, Other, none - not with regex-derived values - and the response
reports success; the regex fallback only runs when the AI yields no object or
an empty one. -/
theorem ai_branch_fixed_defaults (d : GroqParsed) (t : List Char)
    (ht : t ≠ []) :
    (gTruthy d = true →
      upload_receipt (some d) t =
        { success := true
          data := some
            { amount := d.amount, merchant := d.merchant.getD unknownS
              category := d.category.getD otherS, date := d.date }
          errMsg := none }) ∧
    (gTruthy d = false →
      upload_receipt (some d) t =
        { success := true, data := some (parse_receipt_text t)
          errMsg := none }) := by
  have he : t.isEmpty = false := by
    cases t with
    | nil => exact absurd rfl ht
    | cons c cs => rfl
  constructor
  · intro hg
    simp [upload_receipt, he, upload_merge, hg]
  · intro hg
    simp [upload_receipt, he, upload_merge, hg]

/-- Witness for the amended C4: the concrete amount-only AI object is adopted
with fixed defaults on a concrete two-line text. -/
theorem ai_branch_fixed_defaults_witness :
    c4T ≠ [] ∧ gTruthy c4D = true ∧
      upload_receipt (some c4D) c4T =
        { success := true
          data := some
            { amount := some 450, merchant := unknownS, category := otherS
              date := none }
          errMsg := none } :=
  ⟨by decide, by decide,
    (ai_branch_fixed_defaults c4D c4T (by decide)).1 (by decide)⟩

theorem categorize_mem (m : Option (List Char)) : categorize m ∈ catList := by
  cases m with
  | none => decide
  | some mm =>
    simp only [categorize]
    split_ifs <;> decide

/-- C6: the category of every result is a member of the closed six-value set;
it is computed from the resolved merchant alone (equal resolved merchants give
equal categories, so the raw text is never re-scanned); without a resolved
merchant it stays Other, so a non-Other category implies a resolved merchant;
and the orchestrator result keeps the same invariant on both its paths. -/
theorem category_invariants :
    (∀ t, (extract_merchant_info t).category ∈ catList) ∧
    (∀ t, resolveMerchant t = none →
      (extract_merchant_info t).category = otherS) ∧
    (∀ t1 t2, resolveMerchant t1 = resolveMerchant t2 →
      (extract_merchant_info t1).category = (extract_merchant_info t2).category) ∧
    (∀ t ai, (parse_upi_transaction ai t).category ∈ catList) := by
  refine ⟨?_, ?_, ?_, ?_⟩
  · intro t
    exact categorize_mem (resolveMerchant t)
  · intro t h
    show categorize (resolveMerchant t) = otherS
    rw [h]
    decide
  · intro t1 t2 h
    show categorize (resolveMerchant t1) = categorize (resolveMerchant t2)
    rw [h]
  · intro t ai
    by_cases hb : t.all pySpace = true
    · simp only [parse_upi_transaction, hb, if_true]
      decide
    · simp only [parse_upi_transaction, hb, if_false]
      exact categorize_mem (resolveMerchant t)

/-- Witness for C6 at a text with no merchant signal at all. -/
theorem category_invariants_witness :
    resolveMerchant helloT = none ∧
      (extract_merchant_info helloT).category = otherS :=
  ⟨by decide, category_invariants.2.1 helloT (by decide)⟩

theorem hasPre_append_left (x y : List Char) :
    ∀ s : List Char, listHasPre (x ++ y) s = true → listHasPre x s = true := by
  induction x with
  | nil => intro s _; rfl
  | cons a as ih =>
    intro s h
    cases s with
    | nil => exact absurd h (by simp [listHasPre])
    | cons b bs =>
      rw [List.cons_append] at h
      simp only [listHasPre, Bool.and_eq_true] at h ⊢
      exact ⟨h.1, ih bs h.2⟩

theorem hasPre_nl_free (n : List Char) (hn : '\n' ∉ n) :
    ∀ (a b : List Char), listHasPre n (a ++ '\n' :: b) = true →
      listHasPre n a = true := by
  induction n with
  | nil => intro a b _; rfl
  | cons x n' ih =>
    intro a b h
    cases a with
    | nil =>
      simp only [List.nil_append, listHasPre, Bool.and_eq_true,
        beq_iff_eq] at h
      exfalso
      apply hn
      rw [← h.1]
      exact List.mem_cons_self x n'
    | cons y a' =>
      simp only [List.cons_append, listHasPre, Bool.and_eq_true] at h ⊢
      have hn' : '\n' ∉ n' := fun hm => hn (List.mem_cons_of_mem _ hm)
      exact ⟨h.1, ih hn' a' b h.2⟩

theorem containsSub_cons_of (n : List Char) (c : Char) (t : List Char)
    (h : containsSub n t = true) : containsSub n (c :: t) = true := by
  simp only [containsSub, h, Bool.or_true]

theorem pre_append_sub (x y : List Char) :
    ∀ s : List Char, listHasPre (x ++ y) s = true → containsSub y s = true := by
  induction x with
  | nil =>
    intro s h
    rw [List.nil_append] at h
    cases s with
    | nil =>
      cases y with
      | nil => rfl
      | cons c cs => exact absurd h (by simp [listHasPre])
    | cons c cs => simp only [containsSub, h, Bool.true_or]
  | cons a as ih =>
    intro s h
    cases s with
    | nil => exact absurd h (by simp [listHasPre])
    | cons b bs =>
      rw [List.cons_append] at h
      simp only [listHasPre, Bool.and_eq_true] at h
      exact containsSub_cons_of y b bs (ih bs h.2)

theorem containsSub_trans_pre (n m : List Char)
    (hpre : ∀ s, listHasPre n s = true → containsSub m s = true) :
    ∀ l, containsSub n l = true → containsSub m l = true := by
  intro l
  induction l with
  | nil =>
    intro h
    cases n with
    | nil => exact hpre [] rfl
    | cons c cs => exact absurd h (by simp [containsSub])
  | cons c t ih =>
    intro h
    simp only [containsSub, Bool.or_eq_true] at h
    rcases h with h | h
    · exact hpre (c :: t) h
    · exact containsSub_cons_of m c t (ih h)

theorem containsSub_split_nl (n : List Char) (hn : '\n' ∉ n) :
    ∀ (a b : List Char), containsSub n (a ++ '\n' :: b) = true →
      containsSub n a = true ∨ containsSub n b = true := by
  intro a
  induction a with
  | nil =>
    intro b h
    rw [List.nil_append] at h
    simp only [containsSub, Bool.or_eq_true] at h
    rcases h with h | h
    · cases n with
      | nil => left; rfl
      | cons x n' =>
        simp only [listHasPre, Bool.and_eq_true, beq_iff_eq] at h
        exfalso
        apply hn
        rw [← h.1]
        exact List.mem_cons_self x n'
    · right
      exact h
  | cons c a' ih =>
    intro b h
    rw [List.cons_append] at h
    simp only [containsSub, Bool.or_eq_true] at h
    rcases h with h | h
    · left
      have hp : listHasPre n (c :: a') = true := by
        apply hasPre_nl_free n hn (c :: a') b
        rw [List.cons_append]
        exact h
      simp only [containsSub, hp, Bool.true_or]
    · rcases ih b h with h2 | h2
      · left
        exact containsSub_cons_of n c a' h2
      · right
        exact h2

theorem containsSub_joinLines_none (n : List Char) (hne : n ≠ [])
    (hn : '\n' ∉ n) :
    ∀ ls : List (List Char), (∀ l ∈ ls, containsSub n l = false) →
      containsSub n (joinLines ls) = false := by
  intro ls
  induction ls with
  | nil =>
    intro _
    cases n with
    | nil => exact absurd rfl hne
    | cons c cs => rfl
  | cons l ls' ih =>
    intro hall
    cases ls' with
    | nil => exact hall l (List.mem_cons_self l [])
    | cons l2 ls2 =>
      have hIH : containsSub n (joinLines (l2 :: ls2)) = false :=
        ih (fun x hx => hall x (List.mem_cons_of_mem l hx))
      have hl : containsSub n l = false := hall l (List.mem_cons_self l _)
      cases hcc : containsSub n (joinLines (l :: l2 :: ls2)) with
      | false => rfl
      | true =>
        exfalso
        have hsp : containsSub n (l ++ '\n' :: joinLines (l2 :: ls2)) = true :=
          hcc
        rcases containsSub_split_nl n hn l _ hsp with h | h
        · rw [hl] at h
          exact Bool.false_ne_true h
        · rw [hIH] at h
          exact Bool.false_ne_true h

theorem lowerL_joinLines :
    ∀ ls : List (List Char), lowerL (joinLines ls) = joinLines (ls.map lowerL) := by
  intro ls
  induction ls with
  | nil => rfl
  | cons l ls' ih =>
    cases ls' with
    | nil => rfl
    | cons l2 ls2 =>
      show lowerL (l ++ '\n' :: joinLines (l2 :: ls2)) = _
      have e1 : lowerL (l ++ '\n' :: joinLines (l2 :: ls2)) =
          lowerL l ++ '\n' :: lowerL (joinLines (l2 :: ls2)) := by
        simp only [lowerL, List.map_append, List.map_cons]
        have h1 : pyToLower '\n' = '\n' := by decide
        rw [h1]
      rw [e1, ih]
      rfl

theorem lineOK_no_id (l : List Char) (h : lineOK l = true) :
    containsSub ("id".toList) (lowerL l) = false := by
  simp only [lineOK, Bool.and_eq_true] at h
  have h1 := h.1
  rw [List.all_eq_true] at h1
  have h2 := h1 ("id".toList) (by decide)
  rw [Bool.not_eq_true'] at h2
  exact h2

theorem no_paid_in_clean (t : List Char) :
    containsSub ("paid to".toList) (lowerL (merchantTextOf t)) = false := by
  have hpaid : containsSub ("paid".toList) (lowerL (merchantTextOf t)) = false := by
    rw [merchantTextOf, lowerL_joinLines]
    apply containsSub_joinLines_none ("paid".toList) (by decide) (by decide)
    intro l hl
    rcases List.mem_map.mp hl with ⟨l0, hl0, rfl⟩
    have hOK : lineOK l0 = true := (List.mem_filter.mp hl0).2
    have hid : containsSub ("id".toList) (lowerL l0) = false :=
      lineOK_no_id l0 hOK
    cases hc : containsSub ("paid".toList) (lowerL l0) with
    | false => rfl
    | true =>
      exfalso
      have hgot : containsSub ("id".toList) (lowerL l0) = true := by
        apply containsSub_trans_pre ("paid".toList) ("id".toList) ?_ _ hc
        intro s hs
        apply pre_append_sub ("pa".toList) ("id".toList) s
        have e : ("pa".toList ++ "id".toList) = "paid".toList := by decide
        rw [e]
        exact hs
      rw [hid] at hgot
      exact Bool.false_ne_true hgot
  cases hc : containsSub ("paid to".toList) (lowerL (merchantTextOf t)) with
  | false => rfl
  | true =>
    exfalso
    have h2 : containsSub ("paid".toList) (lowerL (merchantTextOf t)) = true := by
      apply containsSub_trans_pre ("paid to".toList) ("paid".toList) ?_ _ hc
      intro s hs
      have hp : listHasPre ("paid".toList) s = true := by
        apply hasPre_append_left ("paid".toList) (" to".toList) s
        have e : ("paid".toList ++ " to".toList) = "paid to".toList := by decide
        rw [e]
        exact hs
      cases s with
      | nil => exact absurd hp (by decide)
      | cons c cs => simp only [containsSub, hp, Bool.true_or]
    rw [hpaid] at h2
    exact Bool.false_ne_true h2

theorem scan_tryKw_none (kw : List Char) (hkw : kw ≠ []) :
    ∀ h : List Char, containsSub kw (lowerL h) = false →
      scanFirst (tryKw1 kw) h = none := by
  intro h
  induction h with
  | nil =>
    intro _
    show tryKw1 kw [] = none
    cases kw with
    | nil => exact absurd rfl hkw
    | cons c cs => rfl
  | cons c t ih =>
    intro hcon
    have hl : lowerL (c :: t) = pyToLower c :: lowerL t := rfl
    rw [hl] at hcon
    simp only [containsSub, Bool.or_eq_false_iff] at hcon
    have hpre : listHasPre kw (lowerL (c :: t)) = false := by
      rw [hl]
      exact hcon.1
    have ht1 : tryKw1 kw (c :: t) = none := by
      unfold tryKw1
      simp [hpre]
    simp only [scanFirst, ht1]
    exact ih hcon.2

/-- C10: the line filter removes every line whose lowercased text contains the
substring id, and since paid contains id, the cleaned text the merchant
patterns run on never contains the phrase paid to in any casing; hence the
paid-to alternative of the first merchant pattern never matches anywhere, for
ANY input text, and merchants named only in a Paid to phrase are resolved
solely through the known-merchant dictionary (Zomato) or default to
Unknown (Ravi Kumar). -/
theorem paid_to_alternative_never_matches :
    (∀ t, scanFirst (tryKw1 paidToL) (merchantTextOf t) = none) ∧
      (extract_merchant_info raviT).merchant = unknownS ∧
      (extract_merchant_info paidZomatoT).merchant = "Zomato".toList ∧
      (extract_merchant_info paidZomatoT).category = "Food & Dining".toList := by
  refine ⟨?_, by decide, by decide, by decide⟩
  intro t
  apply scan_tryKw_none paidToL (by decide) (merchantTextOf t)
  exact no_paid_in_clean t
